import Mathlib

/-!
Shallow embedding of the game-metadata aggregation pipeline of
`index.py` and `ITADHandler.py`: the `add_game` orchestration with its
per-field extraction rules, and the batched historical-low price
loader, together with theorems settling the specification claims.

Conventions of the embedding: Python dictionaries become association
lists, machine numbers become `Int`/`Nat`, a fallible step returns
`Except PyErr`, and a transport-level failure of a provider is the
`none`/`Option` result that the handlers' `_safe_get` documents.
-/

/-- Runtime errors that the embedded Python code can raise:
`json.loads(None)` raises `TypeError`, reading an unbound loop
variable raises `NameError`, a missing dictionary key raises
`KeyError`, and indexing an empty list raises `IndexError`. -/
inductive PyErr where
  | typeError
  | nameError
  | keyError
  | indexError
deriving DecidableEq, Repr

/-- Historical-low response data: an association list from a pricing
identifier ("plain") to its list of price samples, mirroring the
`data` dictionary of the storelow endpoint; each sample is flattened
to the value of its `price` field. -/
abbrev HistDict := List (String × List Int)

/-- Python `dict.update`: entries of `new` override entries of `d`. -/
def dictUpdate (d new : HistDict) : HistDict :=
  d.filter (fun kv => (new.lookup kv.1).isNone) ++ new

/-- Observable effects of `load_historical_low`: a pacing delay
measured in milliseconds (`time.sleep(0.125)` is 125 ms), or one
provider round-trip carrying a batch of plains. -/
inductive ITADEvent where
  | sleep (ms : Nat)
  | request (batch : List String)
deriving DecidableEq, Repr

/-- Python slice `l[a:b]` for `a ≤ b`, clamped at the end of the list. -/
def pySlice (l : List String) (a b : Nat) : List String :=
  (l.drop a).take (b - a)

/-- Python `range(0, stop, 5)`: the indices 0, 5, 10, … strictly below
`stop`; it has `⌈stop / 5⌉ = (stop + 4) / 5` elements. -/
def pyRange5 (stop : Nat) : List Nat :=
  List.range' 0 ((stop + 4) / 5) 5

/-- State carried through the batching loop of `load_historical_low`:
the event trace so far, the last bound value of the loop variable `i`
(`none` while the loop body has never run), and the accumulated `temp`
dictionary. -/
structure LoopSt where
  evs : List ITADEvent
  lastI : Option Nat
  temp : HistDict

/-- One iteration of the `for i in range(0, len(games), 5)` loop of
`ITADHandler.load_historical_low`: sleep 125 ms, request the batch
`games[i:i+5]`, then either merge the decoded response into `temp`, or
raise `TypeError` (from `json.loads(None)`) when the transport layer
returned `None`.  A raised error skips every remaining iteration. -/
def lhlStep (resp : List String → Option HistDict) (games : List String)
    (acc : LoopSt ⊕ (List ITADEvent × PyErr)) (i : Nat) :
    LoopSt ⊕ (List ITADEvent × PyErr) :=
  match acc with
  | Sum.inr e => Sum.inr e
  | Sum.inl s =>
    let batch := pySlice games i (i + 5)
    let evs := s.evs ++ [ITADEvent.sleep 125, ITADEvent.request batch]
    match resp batch with
    | none => Sum.inr (evs, PyErr.typeError)
    | some d => Sum.inl ⟨evs, some i, dictUpdate s.temp d⟩

/-- Embedding of `ITADHandler.load_historical_low`.  The `for` loop
walks `range(0, len(games), 5)`; afterwards the remainder branch
evaluates `if i < len(games)` — a `NameError` when the loop never
bound `i`, and otherwise one more sleep-and-request round-trip on
`games[i:len(games)]` before returning the accumulated dictionary.
`resp` is the transport behaviour of `get_historic_low`, yielding
`none` exactly when `_safe_get` returns `None`. -/
def load_historical_low (resp : List String → Option HistDict)
    (games : List String) : List ITADEvent × Except PyErr HistDict :=
  match (pyRange5 games.length).foldl (lhlStep resp games) (Sum.inl ⟨[], none, []⟩) with
  | Sum.inr (evs, e) => (evs, Except.error e)
  | Sum.inl s =>
    match s.lastI with
    | none => (s.evs, Except.error PyErr.nameError)
    | some i =>
      if i < games.length then
        let batch := pySlice games i games.length
        let evs := s.evs ++ [ITADEvent.sleep 125, ITADEvent.request batch]
        match resp batch with
        | none => (evs, Except.error PyErr.typeError)
        | some d => (evs, Except.ok (dictUpdate s.temp d))
      else (s.evs, Except.ok s.temp)

/-- Company reference nested inside an involved-companies entry. -/
structure CompanyRef where
  name : String
deriving DecidableEq, Repr

/-- One `involved_companies` entry of a catalog response. -/
structure Involved where
  company : CompanyRef
  developer : Bool
  publisher : Bool
deriving DecidableEq, Repr

/-- One `genres` entry of a catalog response. -/
structure GenreRef where
  name : String
deriving DecidableEq, Repr

/-- Logo reference nested inside a platform entry. -/
structure PlatformLogo where
  url : String
deriving DecidableEq, Repr

/-- One `platforms` entry of a catalog response. -/
structure PlatformRef where
  name : String
  platform_logo : PlatformLogo
deriving DecidableEq, Repr

/-- One member game of a catalog collection, carrying its category
code. -/
structure CollectionGame where
  name : String
  category : Int
deriving DecidableEq, Repr

/-- Collection (series) data of a catalog response. -/
structure Collection where
  name : String
  games : List CollectionGame
deriving DecidableEq, Repr

/-- One `similar_games` entry of a catalog response. -/
structure SimilarGame where
  name : String
deriving DecidableEq, Repr

/-- One catalog (IGDB) entry.  `name` is always present; every other
field is optional and `none` models its absence from the response
dictionary (the Python `'field' in IGDB_res` check). -/
structure IGDBEntry where
  name : String
  genres : Option (List GenreRef)
  involved_companies : Option (List Involved)
  platforms : Option (List PlatformRef)
  collection : Option Collection
  similar_games : Option (List SimilarGame)
deriving DecidableEq, Repr

/-- Value of the `stores` key of the prices dictionary.  `index.py`
initialises it to the typing annotation object `List[str]` — not a
list — and only the no-match branch replaces it by an actual list. -/
inductive StoresVal where
  | typeAlias
  | strList (l : List String)
deriving DecidableEq, Repr

/-- The prices dictionary `{'price': …, 'lowest': …, 'stores': …}`
assembled by `add_game`. -/
structure Prices where
  price : Int
  lowest : Int
  stores : StoresVal
deriving DecidableEq, Repr

/-- The series dictionary `{'name': …, 'games': …}` assembled by
`add_game`. -/
structure Series where
  name : String
  games : List String
deriving DecidableEq, Repr

/-- One platform record `{'name': …, 'logo': …}` assembled by
`add_game`. -/
structure PlatformOut where
  name : String
  logo : String
deriving DecidableEq, Repr

/-- One result entry of the HowLongToBeat scraper. -/
structure HltbEntry where
  gameplayMain : Int
deriving DecidableEq, Repr

/-- The assembled `GameObj` record, with fields in the order of the
constructor call in `index.py`. -/
structure GameObj where
  name : String
  genres : List String
  devs : List String
  publishers : List String
  series : Series
  related : List String
  prices : Prices
  platforms : List PlatformOut
  ttb : Int
  url : String
  art : String
  ocScore : Int
deriving DecidableEq, Repr

/-- Behaviour of the four provider clients during one `add_game` call,
abstracted at their interface boundary.  `igdbSearch` is the catalog
lookup (empty list: no match); `itadSearchResp` is `ITAD.search`
(`none` on transport failure or no match); `itadHistResp` is the
transport behaviour of `get_historic_low` threaded into
`load_historical_low`; `ocResult` is the review pipeline, `some s`
when the validity check passes with truncated score `s`, `none`
otherwise; `hltb` is the HowLongToBeat scraper, whose `Except.error`
stands for a raised exception of any kind. -/
structure Env where
  igdbSearch : String → List IGDBEntry
  itadSearchResp : String → Option String
  itadHistResp : List String → Option HistDict
  ocResult : String → Option Int
  hltb : String → Except Unit (List HltbEntry)

/-- Mutable module-level state of `index.py`: the `games` list and the
`genres_dict` tally (an insertion-ordered dictionary). -/
structure St where
  games : List GameObj
  genresDict : List (String × Nat)
deriving DecidableEq, Repr

/-- Python `genres_dict[g] = genres_dict.get(g, 0) + 1`: bump the
count in place when the key exists, otherwise append it with count 1. -/
def dictIncr (d : List (String × Nat)) (g : String) : List (String × Nat) :=
  if d.any (fun kv => kv.1 == g) then
    d.map (fun kv => if kv.1 == g then (kv.1, kv.2 + 1) else kv)
  else d ++ [(g, 1)]

/-- The genre-tally loop of `add_game`. -/
def tally (d : List (String × Nat)) (gs : List String) : List (String × Nat) :=
  gs.foldl dictIncr d

/-- Genre extraction of `add_game`: the `name` of each entry when the
`genres` field is present, else the empty list. -/
def extractGenres (e : IGDBEntry) : List String :=
  match e.genres with
  | none => []
  | some gs => gs.map (fun g => g.name)

/-- Developer extraction of `add_game`: filter the involved companies
on `developer == True`, keep the company names, and when the result is
non-empty truncate it to its first `min 2 length` entries. -/
def extractDevs (e : IGDBEntry) : List String :=
  match e.involved_companies with
  | none => []
  | some ic =>
    let temp := (ic.filter (fun x => x.developer)).map (fun x => x.company.name)
    if temp.length > 0 then temp.take (min 2 temp.length) else []

/-- Publisher extraction of `add_game`, symmetric to `extractDevs`
with the `publisher` flag. -/
def extractPubs (e : IGDBEntry) : List String :=
  match e.involved_companies with
  | none => []
  | some ic =>
    let temp := (ic.filter (fun x => x.publisher)).map (fun x => x.company.name)
    if temp.length > 0 then temp.take (min 2 temp.length) else []

/-- Platform extraction of `add_game`: present and non-empty platforms
map to name and logo url pairs, anything else gives the empty list. -/
def extractPlatforms (e : IGDBEntry) : List PlatformOut :=
  match e.platforms with
  | none => []
  | some ps =>
    if ps.length > 0 then
      ps.map (fun p => { name := p.name, logo := p.platform_logo.url })
    else []

/-- Series extraction of `add_game`: the default `{'name': 'N/A',
'games': []}` is overridden only when a collection with at least one
member game is present; then the member games are filtered on category
codes `{0, 6, 8, 9, 10, 11}`. -/
def extractSeries (e : IGDBEntry) : Series :=
  match e.collection with
  | none => { name := "N/A", games := [] }
  | some c =>
    if c.games.length > 0 then
      { name := c.name
        games := (c.games.filter
          (fun x => ([0, 6, 8, 9, 10, 11] : List Int).contains x.category)).map
            (fun x => x.name) }
    else { name := "N/A", games := [] }

/-- Related-games extraction of `add_game`. -/
def extractRelated (e : IGDBEntry) : List String :=
  match e.similar_games with
  | none => []
  | some sg =>
    if sg.length > 0 then sg.map (fun x => x.name) else []

/-- Pricing section of `add_game` (given the already-resolved plain):
a failed resolution yields the sentinel dictionary with `stores`
replaced by `[]`; a resolved plain runs `load_historical_low` on the
singleton batch and reads `lowest[plain][0]['price']`, which raises
`KeyError` or `IndexError` when the response lacks the plain or has no
sample, and leaves `stores` as the typing annotation object. -/
def computePrices (hist : List String → Option HistDict)
    (plain : Option String) : Except PyErr Prices :=
  match plain with
  | none => Except.ok { price := -1, lowest := -1, stores := StoresVal.strList [] }
  | some p =>
    match (load_historical_low hist [p]).2 with
    | Except.error e => Except.error e
    | Except.ok lowestD =>
      match lowestD.lookup p with
      | none => Except.error PyErr.keyError
      | some [] => Except.error PyErr.indexError
      | some (pr :: _) =>
        Except.ok { price := -1, lowest := pr, stores := StoresVal.typeAlias }

/-- Completion-time section of `add_game`: the whole lookup, including
the `[0]` indexing, sits in a `try` block whose handler catches any
exception and substitutes the sentinel `-1`. -/
def computeTTB (r : Except Unit (List HltbEntry)) : Int :=
  match r with
  | Except.error _ => -1
  | Except.ok [] => -1
  | Except.ok (entry :: _) => entry.gameplayMain

/-- The `GameObj(...)` constructor call of `add_game`, with the
review score substituted from the validity check (`-1` when the
review result set is invalid) and the completion time from the
guarded HowLongToBeat lookup. -/
def mkGameObj (env : Env) (igdbRes : IGDBEntry) (prices : Prices) : GameObj :=
  { name := igdbRes.name
    genres := extractGenres igdbRes
    devs := extractDevs igdbRes
    publishers := extractPubs igdbRes
    series := extractSeries igdbRes
    related := extractRelated igdbRes
    prices := prices
    platforms := extractPlatforms igdbRes
    ttb := computeTTB (env.hltb igdbRes.name)
    url := "url"
    art := "art"
    ocScore := match env.ocResult igdbRes.name with
      | some s => s
      | none => -1 }

/-- Embedding of `index.py`'s `add_game`: resolve the keyword against
the catalog (zero matches: silent no-op), take the first match, tally
its genres into `genres_dict`, build the per-field extractions, run
the pricing, review and completion-time sections, and append the
assembled `GameObj` as the final operation.  The returned `Option
PyErr` is the exception escaping the call, and the returned state
reflects every mutation performed before such an exception. -/
def addGame (env : Env) (st : St) (keyword : String) : St × Option PyErr :=
  match env.igdbSearch keyword with
  | [] => (st, none)
  | igdbRes :: _ =>
    let gd := tally st.genresDict (extractGenres igdbRes)
    match computePrices env.itadHistResp (env.itadSearchResp igdbRes.name) with
    | Except.error e => ({ games := st.games, genresDict := gd }, some e)
    | Except.ok prices =>
      ({ games := st.games ++ [mkGameObj env igdbRes prices], genresDict := gd }, none)

/-- Modelled from the spec: the current-low/tie-break reconciliation
sub-algorithm of §4.2, which no file under `src/` implements (the
pricing section of `add_game` never reaches per-store current prices).
One streaming step: a strictly lower price resets the minimum and the
store list, an equal price appends the store, a higher price is
skipped. -/
def currentLowStep (acc : Int × List String) (offer : String × Int) :
    Int × List String :=
  if offer.2 < acc.1 then (offer.2, [offer.1])
  else if offer.2 = acc.1 then (acc.1, acc.2 ++ [offer.1])
  else acc

/-- Modelled from the spec: the full §4.2 pass over a non-empty offer
sequence, seeded from the first offer and folding the remaining offers
left to right. -/
def currentLow (first : String × Int) (rest : List (String × Int)) :
    Int × List String :=
  rest.foldl currentLowStep (first.2, [first.1])

/-- Event trace made of a 125 ms pacing sleep immediately followed by
one batch request, one such pair per batch. -/
def pacedEvents : List (List String) → List ITADEvent
  | [] => []
  | b :: bs => ITADEvent.sleep 125 :: ITADEvent.request b :: pacedEvents bs

/-- Event trace of an intermediate outcome of the batching loop. -/
def outEvs : LoopSt ⊕ (List ITADEvent × PyErr) → List ITADEvent
  | Sum.inl s => s.evs
  | Sum.inr (evs, _) => evs

lemma foldl_lhlStep_inr (resp : List String → Option HistDict)
    (games : List String) (e : List ITADEvent × PyErr) (l : List Nat) :
    l.foldl (lhlStep resp games) (Sum.inr e) = Sum.inr e := by
  induction l with
  | nil => rfl
  | cons j t ih => simpa [lhlStep] using ih

lemma batch_len_le (games : List String) (j : Nat) :
    (pySlice games j (j + 5)).length ≤ 5 := by
  simp [pySlice, List.length_take]

lemma lhl_foldl_evs (resp : List String → Option HistDict) (games : List String) :
    ∀ (l : List Nat) (s0 : LoopSt),
      ∃ bs : List (List String),
        outEvs (l.foldl (lhlStep resp games) (Sum.inl s0)) = s0.evs ++ pacedEvents bs ∧
        ∀ b ∈ bs, b.length ≤ 5 := by
  intro l
  induction l with
  | nil => intro s0; exact ⟨[], by simp [outEvs, pacedEvents], by simp⟩
  | cons j t ih =>
    intro s0
    rw [List.foldl_cons]
    cases hr : resp (pySlice games j (j + 5)) with
    | none =>
      have hstep : lhlStep resp games (Sum.inl s0) j =
          Sum.inr (s0.evs ++ [ITADEvent.sleep 125,
            ITADEvent.request (pySlice games j (j + 5))], PyErr.typeError) := by
        simp [lhlStep, hr]
      rw [hstep, foldl_lhlStep_inr]
      refine ⟨[pySlice games j (j + 5)], by simp [outEvs, pacedEvents], ?_⟩
      intro b hb
      rw [List.mem_singleton] at hb
      subst hb
      exact batch_len_le games j
    | some d =>
      have hstep : lhlStep resp games (Sum.inl s0) j =
          Sum.inl ⟨s0.evs ++ [ITADEvent.sleep 125,
            ITADEvent.request (pySlice games j (j + 5))], some j,
            dictUpdate s0.temp d⟩ := by
        simp [lhlStep, hr]
      rw [hstep]
      obtain ⟨bs, hevs, hlen⟩ := ih ⟨s0.evs ++ [ITADEvent.sleep 125,
        ITADEvent.request (pySlice games j (j + 5))], some j, dictUpdate s0.temp d⟩
      refine ⟨pySlice games j (j + 5) :: bs, ?_, ?_⟩
      · rw [hevs]
        simp [pacedEvents]
      · intro b hb
        rcases List.mem_cons.mp hb with h | h
        · subst h; exact batch_len_le games j
        · exact hlen b h

lemma lhl_foldl_lastI (resp : List String → Option HistDict) (games : List String) :
    ∀ (l : List Nat) (s0 s : LoopSt),
      l.foldl (lhlStep resp games) (Sum.inl s0) = Sum.inl s →
      (l = [] ∧ s = s0) ∨ ∃ j, l.getLast? = some j ∧ s.lastI = some j := by
  intro l
  induction l with
  | nil =>
    intro s0 s h
    simp only [List.foldl_nil, Sum.inl.injEq] at h
    exact Or.inl ⟨rfl, h.symm⟩
  | cons j t ih =>
    intro s0 s h
    rw [List.foldl_cons] at h
    cases hr : resp (pySlice games j (j + 5)) with
    | none =>
      have hstep : lhlStep resp games (Sum.inl s0) j =
          Sum.inr (s0.evs ++ [ITADEvent.sleep 125,
            ITADEvent.request (pySlice games j (j + 5))], PyErr.typeError) := by
        simp [lhlStep, hr]
      rw [hstep, foldl_lhlStep_inr] at h
      exact absurd h (by simp)
    | some d =>
      have hstep : lhlStep resp games (Sum.inl s0) j =
          Sum.inl ⟨s0.evs ++ [ITADEvent.sleep 125,
            ITADEvent.request (pySlice games j (j + 5))], some j,
            dictUpdate s0.temp d⟩ := by
        simp [lhlStep, hr]
      rw [hstep] at h
      rcases ih _ _ h with ⟨ht, hs⟩ | ⟨j', hj', hlast⟩
      · subst ht
        refine Or.inr ⟨j, by simp, ?_⟩
        rw [hs]
      · refine Or.inr ⟨j', ?_, hlast⟩
        cases t with
        | nil => simp at hj'
        | cons b t' => rw [List.getLast?_cons_cons]; exact hj'

lemma range'_five_getLast (k : Nat) : ∀ s : Nat,
    (List.range' s (k + 1) 5).getLast? = some (s + 5 * k) := by
  induction k with
  | zero => intro s; simp [List.range'_succ]
  | succ k ih =>
    intro s
    rw [List.range'_succ]
    have h2 : List.range' (s + 5) (k + 1) 5 =
        (s + 5) :: List.range' (s + 5 + 5) k 5 := List.range'_succ _ _ _
    rw [h2, List.getLast?_cons_cons, ← h2, ih (s + 5)]
    congr 1
    omega

/-- Concrete catalog entry used by the evidence environments below. -/
def igdbCeleste : IGDBEntry :=
  { name := "Celeste"
    genres := some [{ name := "Platformer" }]
    involved_companies := none
    platforms := none
    collection := none
    similar_games := none }

/-- Provider behaviour in which the catalog matches, the pricing
identifier resolves, but every storelow round-trip fails at the
transport layer (`_safe_get` returns `None`). -/
def envPricingDown : Env :=
  { igdbSearch := fun _ => [igdbCeleste]
    itadSearchResp := fun _ => some "celeste"
    itadHistResp := fun _ => none
    ocResult := fun _ => some 90
    hltb := fun _ => Except.ok [{ gameplayMain := 8 }] }

/-- C1 — the claim fails on the code: with the catalog and the plain
resolution succeeding but the storelow transport failing, `add_game`
feeds the documented `None` result of `_safe_get` into `json.loads`
inside `load_historical_low`, and the resulting `TypeError` escapes
`add_game`; no record is appended, yet the genre tally was already
mutated, so the failure does not merely degrade the pricing fields. -/
theorem c1_pricing_transport_failure_raises :
    addGame envPricingDown { games := [], genresDict := [] } "Celeste" =
      ({ games := [], genresDict := [("Platformer", 1)] }, some PyErr.typeError) := by
  decide

/-- C10 — confirmed: on an empty identifier list the batching loop
never binds `i`, so the remainder branch's `if i < len(games)` raises
`NameError` instead of returning an empty dictionary. -/
theorem c10_empty_games_name_error (resp : List String → Option HistDict) :
    load_historical_low resp [] = ([], Except.error PyErr.nameError) := rfl


lemma pacedEvents_snoc (bs : List (List String)) (b : List String) :
    pacedEvents (bs ++ [b]) =
      pacedEvents bs ++ [ITADEvent.sleep 125, ITADEvent.request b] := by
  induction bs with
  | nil => rfl
  | cons c cs ih => simp [pacedEvents, ih]

/-- C8 — confirmed: every trace of `load_historical_low` is a sequence
of batches, each of at most 5 identifiers, and each batch request is
immediately preceded by a 125 ms pacing sleep. -/
theorem c8_batched_paced_requests (resp : List String → Option HistDict)
    (games : List String) :
    ∃ bs : List (List String),
      (load_historical_low resp games).1 = pacedEvents bs ∧
      ∀ b ∈ bs, b.length ≤ 5 := by
  obtain ⟨bs, hevs, hlen⟩ :=
    lhl_foldl_evs resp games (pyRange5 games.length) ⟨[], none, []⟩
  unfold load_historical_low
  cases hf : (pyRange5 games.length).foldl (lhlStep resp games)
      (Sum.inl ⟨[], none, []⟩) with
  | inr p =>
    obtain ⟨evs, e⟩ := p
    rw [hf] at hevs
    simp only [outEvs, List.nil_append] at hevs
    exact ⟨bs, hevs, hlen⟩
  | inl s =>
    obtain ⟨sevs, slast, stemp⟩ := s
    rw [hf] at hevs
    simp only [outEvs, List.nil_append] at hevs
    cases slast with
    | none => exact ⟨bs, hevs, hlen⟩
    | some i =>
      rcases lhl_foldl_lastI resp games (pyRange5 games.length) _ _ hf with
        ⟨hnil, hss⟩ | ⟨j, hj, hlast⟩
      · simp [LoopSt.mk.injEq] at hss
      · have hij : some i = some j := hlast
        obtain rfl : i = j := by injection hij
        have hq : games.length ≥ 1 := by
          by_contra hc
          have h0 : games.length = 0 := by omega
          rw [pyRange5, h0] at hj
          simp [List.range'] at hj
        have hq1 : (games.length + 4) / 5 = ((games.length + 4) / 5 - 1) + 1 := by
          omega
        have hlastval : (pyRange5 games.length).getLast? =
            some (0 + 5 * ((games.length + 4) / 5 - 1)) := by
          rw [pyRange5, hq1]
          exact range'_five_getLast _ 0
        rw [hj] at hlastval
        obtain rfl : i = 0 + 5 * ((games.length + 4) / 5 - 1) := by
          injection hlastval
        have hilt : 0 + 5 * ((games.length + 4) / 5 - 1) < games.length := by
          omega
        simp only []
        rw [if_pos hilt]
        have hbl : (pySlice games (0 + 5 * ((games.length + 4) / 5 - 1))
            games.length).length ≤ 5 := by
          simp only [pySlice, List.length_take, List.length_drop]
          omega
        have hmem : ∀ b ∈ bs ++ [pySlice games
            (0 + 5 * ((games.length + 4) / 5 - 1)) games.length],
            b.length ≤ 5 := by
          intro b hb
          rcases List.mem_append.mp hb with h | h
          · exact hlen b h
          · rw [List.mem_singleton] at h
            subst h
            exact hbl
        have hshape : sevs ++ [ITADEvent.sleep 125, ITADEvent.request
            (pySlice games (0 + 5 * ((games.length + 4) / 5 - 1)) games.length)] =
            pacedEvents (bs ++ [pySlice games
              (0 + 5 * ((games.length + 4) / 5 - 1)) games.length]) := by
          rw [pacedEvents_snoc, hevs]
        cases hr : resp (pySlice games (0 + 5 * ((games.length + 4) / 5 - 1))
            games.length) with
        | none =>
          exact ⟨bs ++ [pySlice games (0 + 5 * ((games.length + 4) / 5 - 1))
            games.length], hshape, hmem⟩
        | some d =>
          exact ⟨bs ++ [pySlice games (0 + 5 * ((games.length + 4) / 5 - 1))
            games.length], hshape, hmem⟩

/-- C3 — confirmed (modelled from the spec, the tie-break pass is not
implemented under `src/`): the current-low aggregation is the single
left-to-right fold seeded from the first offer, whose step replaces
low and stores on a strictly lower price, appends the store on an
equal price, skips a higher price; on the worked examples it yields
the stated results in encounter order. -/
theorem c3_current_low_tie_break :
    (∀ f : String × Int, currentLow f [] = (f.2, [f.1])) ∧
    (∀ (f o : String × Int) (rest : List (String × Int)),
      currentLow f (o :: rest) =
        rest.foldl currentLowStep (currentLowStep (f.2, [f.1]) o)) ∧
    (∀ (acc : Int × List String) (o : String × Int), o.2 < acc.1 →
      currentLowStep acc o = (o.2, [o.1])) ∧
    (∀ (acc : Int × List String) (o : String × Int), o.2 = acc.1 →
      currentLowStep acc o = (acc.1, acc.2 ++ [o.1])) ∧
    (∀ (acc : Int × List String) (o : String × Int), acc.1 < o.2 →
      currentLowStep acc o = acc) ∧
    currentLow ("A", 10) [("B", 8), ("C", 8), ("D", 9)] = (8, ["B", "C"]) ∧
    currentLow ("A", 5) [] = (5, ["A"]) ∧
    currentLow ("A", 5) [("B", 5)] = (5, ["A", "B"]) := by
  refine ⟨fun f => rfl, fun f o rest => rfl, ?_, ?_, ?_, by decide, by decide, by decide⟩
  · intro acc o h
    simp [currentLowStep, h]
  · intro acc o h
    rw [currentLowStep, if_neg (by omega), if_pos h]
  · intro acc o h
    rw [currentLowStep, if_neg (by omega), if_neg (by omega)]

/-- Witness for C3 at a concrete step input. -/
theorem c3_witness : currentLowStep (5, ["A"]) ("B", 4) = (4, ["B"]) :=
  c3_current_low_tie_break.2.2.1 (5, ["A"]) ("B", 4) (by decide)

/-- C4 — confirmed: when the catalog search yields zero matches,
`add_game` returns immediately, leaving both the games list and the
genre tally unchanged and raising nothing. -/
theorem c4_catalog_no_match_noop (env : Env) (st : St) (kw : String)
    (h : env.igdbSearch kw = []) : addGame env st kw = (st, none) := by
  simp [addGame, h]

/-- Provider behaviour with an empty catalog. -/
def envNoCatalog : Env :=
  { igdbSearch := fun _ => []
    itadSearchResp := fun _ => none
    itadHistResp := fun _ => none
    ocResult := fun _ => none
    hltb := fun _ => Except.error () }

/-- Witness for C4 on a concrete environment and state. -/
theorem c4_witness :
    addGame envNoCatalog { games := [], genresDict := [("RPG", 3)] } "x" =
      ({ games := [], genresDict := [("RPG", 3)] }, none) :=
  c4_catalog_no_match_noop envNoCatalog { games := [], genresDict := [("RPG", 3)] } "x" rfl

/-- C9 — confirmed: whenever `add_game` terminates with an escaping
exception, the games list is exactly the input games list; the append
of the assembled record is the final operation, so a record is stored
only after every preceding step completed. -/
theorem c9_no_append_on_exception (env : Env) (st : St) (kw : String) (e : PyErr)
    (h : (addGame env st kw).2 = some e) :
    (addGame env st kw).1.games = st.games := by
  cases hs : env.igdbSearch kw with
  | nil => simp [addGame, hs]
  | cons ig tl =>
    cases hp : computePrices env.itadHistResp (env.itadSearchResp ig.name) with
    | error er => simp [addGame, hs, hp]
    | ok pr => simp [addGame, hs, hp] at h

/-- Witness for C9 on the concrete failing-transport environment. -/
theorem c9_witness :
    (addGame envPricingDown { games := [], genresDict := [] } "Celeste").1.games = [] :=
  c9_no_append_on_exception envPricingDown { games := [], genresDict := [] }
    "Celeste" PyErr.typeError (by decide)

lemma addGame_append_shape (env : Env) (st : St) (kw : String) (r : GameObj)
    (h : (addGame env st kw).1.games = st.games ++ [r]) :
    ∃ ig tl pr, env.igdbSearch kw = ig :: tl ∧
      computePrices env.itadHistResp (env.itadSearchResp ig.name) = Except.ok pr ∧
      r = mkGameObj env ig pr := by
  cases hs : env.igdbSearch kw with
  | nil =>
    exfalso
    simp [addGame, hs] at h
  | cons ig tl =>
    cases hp : computePrices env.itadHistResp (env.itadSearchResp ig.name) with
    | error er =>
      exfalso
      simp [addGame, hs, hp] at h
    | ok pr =>
      refine ⟨ig, tl, pr, rfl, hp, ?_⟩
      simp [addGame, hs, hp] at h
      exact h.symm

lemma computePrices_ok_shape (hist : List String → Option HistDict)
    (plain : Option String) (pr : Prices)
    (h : computePrices hist plain = Except.ok pr) :
    pr.price = -1 ∧
    (pr.stores = StoresVal.typeAlias ∨ pr.stores = StoresVal.strList []) := by
  cases plain with
  | none =>
    simp only [computePrices, Except.ok.injEq] at h
    rw [← h]
    exact ⟨rfl, Or.inr rfl⟩
  | some p =>
    unfold computePrices at h
    simp only [] at h
    cases hl : (load_historical_low hist [p]).2 with
    | error e => rw [hl] at h; simp at h
    | ok d =>
      rw [hl] at h
      simp only [] at h
      cases hk : d.lookup p with
      | none => rw [hk] at h; simp at h
      | some samples =>
        cases samples with
        | nil => rw [hk] at h; simp at h
        | cons s0 rest =>
          rw [hk] at h
          simp only [Except.ok.injEq] at h
          rw [← h]
          exact ⟨rfl, Or.inl rfl⟩

/-- C2 — confirmed (degenerately): on every record `add_game` ever
appends, `prices['price']` (the current price) is still the `-1`
sentinel it was initialised to, and `prices['stores']` is never a
non-empty list of store names (it is either the replaced empty list or
the leftover `List[str]` annotation object), so the biconditional
holds with both sides false. -/
theorem c2_stores_nonempty_iff_current_known (env : Env) (st : St) (kw : String)
    (r : GameObj) (h : (addGame env st kw).1.games = st.games ++ [r]) :
    (∃ l, r.prices.stores = StoresVal.strList l ∧ l ≠ []) ↔ r.prices.price ≠ -1 := by
  obtain ⟨ig, tl, pr, hs, hp, rfl⟩ := addGame_append_shape env st kw r h
  obtain ⟨hprice, hstores⟩ := computePrices_ok_shape _ _ _ hp
  refine iff_of_false ?_ ?_
  · rintro ⟨l, hl, hne⟩
    have hl' : pr.stores = StoresVal.strList l := hl
    rcases hstores with h1 | h1 <;> rw [h1] at hl'
    · cases hl'
    · injection hl' with h2
      exact hne h2.symm
  · intro hne
    exact hne hprice

/-- Concrete catalog entry with every optional field populated. -/
def igdbRich : IGDBEntry :=
  { name := "Hades"
    genres := some [{ name := "Roguelike" }, { name := "Action" }]
    involved_companies := some
      [ { company := { name := "Supergiant" }, developer := true, publisher := true }
      , { company := { name := "DevB" }, developer := true, publisher := false }
      , { company := { name := "DevC" }, developer := true, publisher := false }
      , { company := { name := "PubD" }, developer := false, publisher := true } ]
    platforms := some [{ name := "PC", platform_logo := { url := "logo.png" } }]
    collection := some
      { name := "Hades Series"
        games :=
          [ { name := "Hades", category := 0 }
          , { name := "Hades Pack", category := 3 }
          , { name := "Hades II", category := 8 } ] }
    similar_games := some [{ name := "Bastion" }] }

/-- Provider behaviour in which every provider answers fully. -/
def envFull : Env :=
  { igdbSearch := fun _ => [igdbRich]
    itadSearchResp := fun _ => some "hades"
    itadHistResp := fun _ => some [("hades", [999])]
    ocResult := fun _ => some 93
    hltb := fun _ => Except.ok [{ gameplayMain := 21 }] }

/-- The prices record `add_game` builds under `envFull`. -/
def prHades : Prices :=
  { price := -1, lowest := 999, stores := StoresVal.typeAlias }

/-- Witness for C2 on a concretely produced record. -/
theorem c2_witness :
    (∃ l, (mkGameObj envFull igdbRich prHades).prices.stores = StoresVal.strList l ∧
        l ≠ []) ↔
      (mkGameObj envFull igdbRich prHades).prices.price ≠ -1 :=
  c2_stores_nonempty_iff_current_known envFull { games := [], genresDict := [] }
    "Hades" (mkGameObj envFull igdbRich prHades) (by decide)

/-- C5 — confirmed: whenever the HowLongToBeat lookup raises (its
whole section, including the `[0]` indexing, is inside the broad
`except` handler), `add_game` substitutes the sentinel `-1` for the
completion time and still appends the assembled record, provided the
earlier pipeline stages ran without an escaping exception (a catalog
match exists and the pricing section returned normally). -/
theorem c5_hltb_failure_still_appends (env : Env) (st : St) (kw : String)
    (ig : IGDBEntry) (tl : List IGDBEntry) (hs : env.igdbSearch kw = ig :: tl)
    (pr : Prices)
    (hp : computePrices env.itadHistResp (env.itadSearchResp ig.name) = Except.ok pr)
    (u : Unit) (hh : env.hltb ig.name = Except.error u) :
    (addGame env st kw).2 = none ∧
    ∃ r, (addGame env st kw).1.games = st.games ++ [r] ∧ r.ttb = -1 := by
  refine ⟨by simp [addGame, hs, hp], ⟨mkGameObj env ig pr, by simp [addGame, hs, hp], ?_⟩⟩
  show computeTTB (env.hltb ig.name) = -1
  rw [hh]
  rfl

/-- Provider behaviour in which only the HowLongToBeat scraper fails,
by raising an exception. -/
def envHltbDown : Env :=
  { igdbSearch := fun _ => [igdbRich]
    itadSearchResp := fun _ => some "hades"
    itadHistResp := fun _ => some [("hades", [999])]
    ocResult := fun _ => some 93
    hltb := fun _ => Except.error () }

/-- Witness for C5 on the concrete environment whose completion-time
lookup raises. -/
theorem c5_witness :
    (addGame envHltbDown { games := [], genresDict := [] } "Hades").2 = none ∧
    ∃ r, (addGame envHltbDown { games := [], genresDict := [] } "Hades").1.games =
        ({ games := [], genresDict := [] } : St).games ++ [r] ∧ r.ttb = -1 :=
  c5_hltb_failure_still_appends envHltbDown { games := [], genresDict := [] }
    "Hades" igdbRich [] rfl prHades rfl () rfl

/-- Restatement of claim C6's developer rule: the first at most 2
involved companies flagged `developer == true`, in catalog-provided
order, empty when the involved-companies field is absent. -/
def devsClaimed (e : IGDBEntry) : List String :=
  match e.involved_companies with
  | none => []
  | some ic => (((ic.filter (fun x => x.developer)).map (fun x => x.company.name)).take 2)

/-- Restatement of claim C6's publisher rule, symmetric to
`devsClaimed` with the `publisher` flag. -/
def pubsClaimed (e : IGDBEntry) : List String :=
  match e.involved_companies with
  | none => []
  | some ic => (((ic.filter (fun x => x.publisher)).map (fun x => x.company.name)).take 2)

lemma take_min_two (l : List String) : l.take (min 2 l.length) = l.take 2 := by
  rcases Nat.le_total 2 l.length with h | h
  · rw [Nat.min_eq_left h]
  · rw [Nat.min_eq_right h, List.take_length, List.take_of_length_le h]

lemma extractDevs_eq_claim (e : IGDBEntry) : extractDevs e = devsClaimed e := by
  unfold extractDevs devsClaimed
  cases e.involved_companies with
  | none => rfl
  | some ic =>
    simp only []
    by_cases h0 :
        ((ic.filter (fun x => x.developer)).map (fun x => x.company.name)).length > 0
    · rw [if_pos h0, take_min_two]
    · rw [if_neg h0]
      have he : ((ic.filter (fun x => x.developer)).map (fun x => x.company.name)) = [] := by
        rcases Nat.eq_zero_or_pos
            ((ic.filter (fun x => x.developer)).map (fun x => x.company.name)).length with
          hz | hpos
        · exact List.length_eq_zero.mp hz
        · exact absurd hpos h0
      rw [he]
      rfl

lemma extractPubs_eq_claim (e : IGDBEntry) : extractPubs e = pubsClaimed e := by
  unfold extractPubs pubsClaimed
  cases e.involved_companies with
  | none => rfl
  | some ic =>
    simp only []
    by_cases h0 :
        ((ic.filter (fun x => x.publisher)).map (fun x => x.company.name)).length > 0
    · rw [if_pos h0, take_min_two]
    · rw [if_neg h0]
      have he : ((ic.filter (fun x => x.publisher)).map (fun x => x.company.name)) = [] := by
        rcases Nat.eq_zero_or_pos
            ((ic.filter (fun x => x.publisher)).map (fun x => x.company.name)).length with
          hz | hpos
        · exact List.length_eq_zero.mp hz
        · exact absurd hpos h0
      rw [he]
      rfl

lemma devsClaimed_len (e : IGDBEntry) : (devsClaimed e).length ≤ 2 := by
  unfold devsClaimed
  cases e.involved_companies with
  | none => simp
  | some ic => simp [List.length_take]

lemma pubsClaimed_len (e : IGDBEntry) : (pubsClaimed e).length ≤ 2 := by
  unfold pubsClaimed
  cases e.involved_companies with
  | none => simp
  | some ic => simp [List.length_take]

/-- C6 — confirmed: every record `add_game` appends for a catalog
match carries exactly the first at most 2 developer-flagged and the
first at most 2 publisher-flagged company names in catalog-provided
order (empty lists when the involved-companies field is absent), and
both lists have length at most 2. -/
theorem c6_developers_publishers (env : Env) (st : St) (kw : String)
    (ig : IGDBEntry) (tl : List IGDBEntry) (hs : env.igdbSearch kw = ig :: tl)
    (r : GameObj) (h : (addGame env st kw).1.games = st.games ++ [r]) :
    r.devs = devsClaimed ig ∧ r.publishers = pubsClaimed ig ∧
    r.devs.length ≤ 2 ∧ r.publishers.length ≤ 2 := by
  obtain ⟨ig', tl', pr, hs', hp, rfl⟩ := addGame_append_shape env st kw r h
  rw [hs] at hs'
  injection hs' with h1 h2
  subst h1
  refine ⟨extractDevs_eq_claim ig, extractPubs_eq_claim ig, ?_, ?_⟩
  · show (extractDevs ig).length ≤ 2
    rw [extractDevs_eq_claim]
    exact devsClaimed_len ig
  · show (extractPubs ig).length ≤ 2
    rw [extractPubs_eq_claim]
    exact pubsClaimed_len ig

/-- Witness for C6 on the fully populated concrete entry. -/
theorem c6_witness :
    (mkGameObj envFull igdbRich prHades).devs = devsClaimed igdbRich ∧
    (mkGameObj envFull igdbRich prHades).publishers = pubsClaimed igdbRich ∧
    (mkGameObj envFull igdbRich prHades).devs.length ≤ 2 ∧
    (mkGameObj envFull igdbRich prHades).publishers.length ≤ 2 :=
  c6_developers_publishers envFull { games := [], genresDict := [] } "Hades"
    igdbRich [] rfl (mkGameObj envFull igdbRich prHades) (by decide)

/-- Restatement of claim C7's series rule: the default
`{'name': 'N/A', 'games': []}` unless the entry has a collection with
at least one member game, in which case the name is the collection
name and the games are the names, in catalog order, of exactly the
members whose category code lies in `{0, 6, 8, 9, 10, 11}`. -/
def seriesClaimed (e : IGDBEntry) : Series :=
  match e.collection with
  | none => { name := "N/A", games := [] }
  | some c =>
    if c.games = [] then { name := "N/A", games := [] }
    else
      { name := c.name
        games := (c.games.filter
          (fun x => ([0, 6, 8, 9, 10, 11] : List Int).contains x.category)).map
            (fun x => x.name) }

lemma extractSeries_eq_claim (e : IGDBEntry) : extractSeries e = seriesClaimed e := by
  unfold extractSeries seriesClaimed
  cases e.collection with
  | none => rfl
  | some c =>
    simp only []
    by_cases hc : c.games = []
    · rw [if_neg (by simp [hc]), if_pos hc]
    · rw [if_pos (by simpa [List.length_pos] using hc), if_neg hc]

/-- C7 — confirmed: every record `add_game` appends for a catalog
match carries the series field described by the claim: the "N/A"
default unless a collection with at least one member game is present,
and then the collection name together with the member names whose
category code is allowed. -/
theorem c7_series_extraction (env : Env) (st : St) (kw : String)
    (ig : IGDBEntry) (tl : List IGDBEntry) (hs : env.igdbSearch kw = ig :: tl)
    (r : GameObj) (h : (addGame env st kw).1.games = st.games ++ [r]) :
    r.series = seriesClaimed ig := by
  obtain ⟨ig', tl', pr, hs', hp, rfl⟩ := addGame_append_shape env st kw r h
  rw [hs] at hs'
  injection hs' with h1 h2
  subst h1
  exact extractSeries_eq_claim ig

/-- Witness for C7 on the fully populated concrete entry. -/
theorem c7_witness :
    (mkGameObj envFull igdbRich prHades).series = seriesClaimed igdbRich :=
  c7_series_extraction envFull { games := [], genresDict := [] } "Hades"
    igdbRich [] rfl (mkGameObj envFull igdbRich prHades) (by decide)
